import Mathlib

/-!
Verification of the readability-analyzer core (`src/metrics.py`, `src/utils.py`,
`src/analyzer.py`) against its natural-language specification.

Texts are modelled as `List Char`; Python floats are modelled as exact
rationals `ℚ`; Python's `round(x, 2)` is modelled as round-half-to-even at two
decimal places; fallible operations return `Except`.  Definitions are
translated directly from the Python source.
-/

namespace Readability

/-- Whitespace recognized by the embedding of Python's `str.strip` and `\s`
(the ASCII whitespace characters). -/
def pyIsSpace (c : Char) : Bool :=
  c = ' ' || c = '\t' || c = '\n' || c = '\r' || c = '\x0b' || c = '\x0c'

/-- Lowercasing of a single character as Python's `str.lower` acts on the
Latin and Cyrillic letters handled by this program; all other characters are
left unchanged. -/
def toLowerChar : Char → Char
  | 'A' => 'a' | 'B' => 'b' | 'C' => 'c' | 'D' => 'd' | 'E' => 'e' | 'F' => 'f'
  | 'G' => 'g' | 'H' => 'h' | 'I' => 'i' | 'J' => 'j' | 'K' => 'k' | 'L' => 'l'
  | 'M' => 'm' | 'N' => 'n' | 'O' => 'o' | 'P' => 'p' | 'Q' => 'q' | 'R' => 'r'
  | 'S' => 's' | 'T' => 't' | 'U' => 'u' | 'V' => 'v' | 'W' => 'w' | 'X' => 'x'
  | 'Y' => 'y' | 'Z' => 'z'
  | 'А' => 'а' | 'Б' => 'б' | 'В' => 'в' | 'Г' => 'г' | 'Д' => 'д' | 'Е' => 'е'
  | 'Ж' => 'ж' | 'З' => 'з' | 'И' => 'и' | 'Й' => 'й' | 'К' => 'к' | 'Л' => 'л'
  | 'М' => 'м' | 'Н' => 'н' | 'О' => 'о' | 'П' => 'п' | 'Р' => 'р' | 'С' => 'с'
  | 'Т' => 'т' | 'У' => 'у' | 'Ф' => 'ф' | 'Х' => 'х' | 'Ц' => 'ц' | 'Ч' => 'ч'
  | 'Ш' => 'ш' | 'Щ' => 'щ' | 'Ъ' => 'ъ' | 'Ы' => 'ы' | 'Ь' => 'ь' | 'Э' => 'э'
  | 'Ю' => 'ю' | 'Я' => 'я' | 'Ё' => 'ё'
  | c => c

/-- Python `text.lower()` on a character list. -/
def pyLower (l : List Char) : List Char := l.map toLowerChar

/-- Python `s.strip()`: remove leading and trailing whitespace. -/
def pyStrip (l : List Char) : List Char :=
  ((l.dropWhile pyIsSpace).reverse.dropWhile pyIsSpace).reverse

/-- English vowels used by `count_syllables` (`vowels = "aeiouy"`). -/
def isVowelEn (c : Char) : Bool :=
  c = 'a' || c = 'e' || c = 'i' || c = 'o' || c = 'u' || c = 'y'

/-- Russian vowels used by `count_syllables_ru` (`vowels = "аеёиоуыэюя"`). -/
def isVowelRu (c : Char) : Bool :=
  c = 'а' || c = 'е' || c = 'ё' || c = 'и' || c = 'о' ||
  c = 'у' || c = 'ы' || c = 'э' || c = 'ю' || c = 'я'

/-- The scan loop of `count_syllables`: counts positions where a vowel
follows a non-vowel (`is_vowel and not prev_was_vowel`), threading
`prev_was_vowel`. -/
def risingEdgesAux : Bool → List Char → Nat
  | _, [] => 0
  | prevVowel, c :: cs =>
    (if isVowelEn c && !prevVowel then 1 else 0) + risingEdgesAux (isVowelEn c) cs

/-- Embedding of `metrics.count_syllables`: English syllable estimate.  Mirrors the source:
lower+strip, vowel-run rising edges, silent-`e` correction, `-le` correction,
then `max(1, count)`; empty (stripped) input yields 0. -/
def count_syllables (w : List Char) : Nat :=
  let word := pyStrip (pyLower w)
  if word = [] then 0
  else
    let base := risingEdgesAux false word
    let afterSilentE := if word.getLast? = some 'e' ∧ 1 < base then base - 1 else base
    let afterLe :=
      match word.reverse with
      | 'e' :: 'l' :: c :: _ => if isVowelEn c then afterSilentE else afterSilentE + 1
      | _ => afterSilentE
    max 1 afterLe

/-- Embedding of `metrics.count_syllables_ru`: Russian syllable estimate (vowel count,
clamped to 1 for nonempty stripped input, 0 for empty). -/
def count_syllables_ru (w : List Char) : Nat :=
  let word := pyStrip (pyLower w)
  if word = [] then 0
  else max 1 (word.countP (fun c => isVowelRu c))

/-- Round-half-to-even to an integer, as Python's builtin `round` behaves on
exact values. -/
def rhalfEven (q : ℚ) : ℤ :=
  if q - ⌊q⌋ < 1 / 2 then ⌊q⌋
  else if 1 / 2 < q - ⌊q⌋ then ⌊q⌋ + 1
  else if ⌊q⌋ % 2 = 0 then ⌊q⌋ else ⌊q⌋ + 1

/-- Python `round(x, 2)`: round to two decimal places. -/
def round2 (q : ℚ) : ℚ := (rhalfEven (100 * q) : ℚ) / 100

/-- Embedding of `metrics.flesch_reading_ease`, translated from the source: zero-denominator
guard, the Flesch formula, clamp to `[0, 100]`, round to 2 decimals. -/
def flesch_reading_ease (total_words total_sentences total_syllables : ℕ) : ℚ :=
  if total_words = 0 ∨ total_sentences = 0 then 0
  else
    let avg_sentence_length : ℚ := (total_words : ℚ) / (total_sentences : ℚ)
    let avg_syllables_per_word : ℚ := (total_syllables : ℚ) / (total_words : ℚ)
    let score := 206.835 - 1.015 * avg_sentence_length - 84.6 * avg_syllables_per_word
    round2 (max 0 (min 100 score))

/-- Embedding of `metrics.flesch_kincaid_grade`, translated from the source. -/
def flesch_kincaid_grade (total_words total_sentences total_syllables : ℕ) : ℚ :=
  if total_words = 0 ∨ total_sentences = 0 then 0
  else
    let avg_sentence_length : ℚ := (total_words : ℚ) / (total_sentences : ℚ)
    let avg_syllables_per_word : ℚ := (total_syllables : ℚ) / (total_words : ℚ)
    round2 (max 0 (0.39 * avg_sentence_length + 11.8 * avg_syllables_per_word - 15.59))

/-- Embedding of `metrics.coleman_liau_index`, translated from the source. -/
def coleman_liau_index (total_chars total_words total_sentences : ℕ) : ℚ :=
  if total_words = 0 then 0
  else
    let l : ℚ := ((total_chars : ℚ) / (total_words : ℚ)) * 100
    let s : ℚ := ((total_sentences : ℚ) / (total_words : ℚ)) * 100
    round2 (max 0 (0.0588 * l - 0.296 * s - 15.8))

/-- Embedding of `metrics.automated_readability_index`, translated from the source. -/
def automated_readability_index (total_chars total_words total_sentences : ℕ) : ℚ :=
  if total_words = 0 ∨ total_sentences = 0 then 0
  else
    let avg_chars_per_word : ℚ := (total_chars : ℚ) / (total_words : ℚ)
    let avg_words_per_sentence : ℚ := (total_words : ℚ) / (total_sentences : ℚ)
    round2 (max 0 (4.71 * avg_chars_per_word + 0.5 * avg_words_per_sentence - 21.43))

/-- The Flesch Reading Ease computation exactly as claim C3 words it:
`206.835 − 1.015·(words/sentences) − 84.6·(syllables/words)` clamped to
`[0, 100]` and rounded to two decimal places. -/
def fleschSpecFormula (total_words total_sentences total_syllables : ℕ) : ℚ :=
  round2 (max 0 (min 100
    (206.835 - 1.015 * ((total_words : ℚ) / (total_sentences : ℚ))
      - 84.6 * ((total_syllables : ℚ) / (total_words : ℚ)))))

/-- The English syllable algorithm exactly as claim C4 words it: lowercase the
word, count rising edges into vowel runs, silent-`e` decrement, `-le`
increment when a non-vowel precedes, clamp to minimum 1 for nonempty input and
0 for empty input (no whitespace stripping step). -/
def claimSyllableAlg (w : List Char) : Nat :=
  if w = [] then 0
  else
    let word := pyLower w
    let base := risingEdgesAux false word
    let afterSilentE := if word.getLast? = some 'e' ∧ 1 < base then base - 1 else base
    let afterLe :=
      match word.reverse with
      | 'e' :: 'l' :: c :: _ => if isVowelEn c then afterSilentE else afterSilentE + 1
      | _ => afterSilentE
    max 1 afterLe

/- Classifier: `TextAnalyzer.DIFFICULTY_THRESHOLDS` and
`TextAnalyzer._get_difficulty_level`. -/

/-- The five `(low, high) → (level, audience)` bands, in the insertion order of
the Python dict. -/
def DIFFICULTY_THRESHOLDS : List ((ℚ × ℚ) × String × String) :=
  [((90, 100), "Очень легко", "Начальная школа (1-4 класс)"),
   ((70, 89), "Легко", "Средняя школа (5-7 класс)"),
   ((50, 69), "Средне", "Старшая школа (8-11 класс)"),
   ((30, 49), "Сложно", "Студенты бакалавриата"),
   ((0, 29), "Очень сложно", "Магистратура / Специалисты")]

/-- The `for (low, high), (level, audience) in ...: if low <= score <= high`
scan of `_get_difficulty_level`. -/
def lookupBand : List ((ℚ × ℚ) × String × String) → ℚ → Option (String × String)
  | [], _ => none
  | (b, lab) :: rest, f => if b.1 ≤ f ∧ f ≤ b.2 then some lab else lookupBand rest f

/-- Embedding of `TextAnalyzer._get_difficulty_level`: first matching band, else the
`("Неопределённо", "Неизвестно")` fallback. -/
def get_difficulty_level (f : ℚ) : String × String :=
  (lookupBand DIFFICULTY_THRESHOLDS f).getD ("Неопределённо", "Неизвестно")

/- Recommendation engine: `TextAnalyzer._generate_recommendations`.  The eight
possible messages are modelled as an enumeration (the Python strings carry no
further structure used by the program). -/

/-- The eight recommendation messages of `_generate_recommendations`. -/
inductive Recommendation
  | shortenStrong | shortenSoft | vocabStrong | vocabSoft
  | veryHardWarning | preparedAudience | shortTextCaveat | wellBalanced
deriving DecidableEq

/-- Embedding of `TextAnalyzer._generate_recommendations`, translated from the source:
sequential `if/elif` appends, then the "well balanced" message when nothing
fired. -/
def generate_recommendations (avg_sentence_length avg_word_length flesch_score : ℚ)
    (word_count : ℕ) : List Recommendation :=
  let recs : List Recommendation := []
  let recs := if 25 < avg_sentence_length then recs ++ [.shortenStrong]
    else if 20 < avg_sentence_length then recs ++ [.shortenSoft] else recs
  let recs := if 7 < avg_word_length then recs ++ [.vocabStrong]
    else if 6 < avg_word_length then recs ++ [.vocabSoft] else recs
  let recs := if flesch_score < 30 then recs ++ [.veryHardWarning]
    else if flesch_score < 50 then recs ++ [.preparedAudience] else recs
  let recs := if word_count < 100 then recs ++ [.shortTextCaveat] else recs
  if recs = [] then [.wellBalanced] else recs

/-- The recommendation rules exactly as claim C6 words them: four independent
blocks in fixed order (within the first three, the stronger threshold is
checked first and only one of the pair fires), concatenated in rule order,
with a single "well balanced" message when no rule fired. -/
def recsSpecC6 (asl awl f : ℚ) (wc : ℕ) : List Recommendation :=
  let b1 : List Recommendation :=
    if 25 < asl then [.shortenStrong] else if 20 < asl ∧ asl ≤ 25 then [.shortenSoft] else []
  let b2 : List Recommendation :=
    if 7 < awl then [.vocabStrong] else if 6 < awl ∧ awl ≤ 7 then [.vocabSoft] else []
  let b3 : List Recommendation :=
    if f < 30 then [.veryHardWarning] else if 30 ≤ f ∧ f < 50 then [.preparedAudience] else []
  let b4 : List Recommendation := if wc < 100 then [.shortTextCaveat] else []
  let all := b1 ++ b2 ++ b3 ++ b4
  if all = [] then [.wellBalanced] else all

/- Language detector: `utils.detect_language`. -/

/-- Cyrillic letters, as the regex `[а-яА-ЯёЁ]` matches. -/
def isCyrChar (c : Char) : Bool :=
  ('а' ≤ c && c ≤ 'я') || ('А' ≤ c && c ≤ 'Я') || c = 'ё' || c = 'Ё'

/-- Latin letters, as the regex `[a-zA-Z]` matches. -/
def isLatChar (c : Char) : Bool :=
  ('a' ≤ c && c ≤ 'z') || ('A' ≤ c && c ≤ 'Z')

/-- Embedding of `utils.detect_language`, translated from the source: count Cyrillic and
Latin letters, return `'ru'` only on a strict Cyrillic majority. -/
def detect_language (t : List Char) : String :=
  if t = [] then "en"
  else
    let russian_chars := t.countP isCyrChar
    let english_chars := t.countP isLatChar
    if russian_chars > english_chars then "ru" else "en"

/- Tokenization: `utils.clean_text`, `utils.tokenize_sentences`,
`utils.tokenize_words`, `utils.count_characters`. -/

/-- Sentence-boundary characters of the split pattern `[.!?]+`. -/
def isEndChar (c : Char) : Bool := c = '.' || c = '!' || c = '?'

/-- Letters matched by the word pattern `[a-zA-Zа-яА-ЯёЁ]`. -/
def targetLetter (c : Char) : Bool := isLatChar c || isCyrChar c

/-- Word characters for the regex word boundary `\b` (the letters handled by
this program, ASCII digits and underscore). -/
def isWordChar (c : Char) : Bool := targetLetter c || c.isDigit || c = '_'

/-- Python `s.replace(pat, rep)` — replace all non-overlapping occurrences,
left to right.  Implemented on a fuel counter: each step consumes at least one
character of `s` (the patterns used in this program are nonempty), so
`s.length` fuel always suffices. -/
def replaceAllFuel (pat rep : List Char) : Nat → List Char → List Char
  | 0, s => s
  | _ + 1, [] => []
  | fuel + 1, c :: cs =>
    if pat.isPrefixOf (c :: cs) then
      rep ++ replaceAllFuel pat rep fuel ((c :: cs).drop pat.length)
    else c :: replaceAllFuel pat rep fuel cs

/-- Python `s.replace(pat, rep)`. -/
def pyReplace (s pat rep : List Char) : List Char := replaceAllFuel pat rep s.length s

/-- The `<DOT>` placeholder used by `tokenize_sentences`. -/
def dotToken : List Char := "<DOT>".toList

/-- The fixed abbreviation list of `tokenize_sentences`. -/
def ABBREVIATIONS : List (List Char) :=
  ["Mr.".toList, "Mrs.".toList, "Dr.".toList, "Prof.".toList, "Jr.".toList,
   "Sr.".toList, "vs.".toList, "etc.".toList, "e.g.".toList, "i.e.".toList,
   "т.д.".toList, "т.п.".toList, "др.".toList, "пр.".toList, "г.".toList,
   "гг.".toList]

/-- Python `abbr.replace('.', '<DOT>')`. -/
def maskDots (a : List Char) : List Char := pyReplace a ['.'] dotToken

/-- The abbreviation-protection loop of `tokenize_sentences`
(`protected_text = protected_text.replace(abbr, ...)` over the list). -/
def maskAbbreviations (t : List Char) : List Char :=
  ABBREVIATIONS.foldl (fun s a => pyReplace s a (maskDots a)) t

/-- Head test used by the run-collapsing split. -/
def headIsEnd : List Char → Bool
  | [] => false
  | d :: _ => isEndChar d

/-- Embedding of `re.split(r'[.!?]+', s)`: returns the first segment and the remaining
segments; a run of consecutive boundary characters produces one split. -/
def splitEndsAux : List Char → List Char × List (List Char)
  | [] => ([], [])
  | c :: cs =>
    if isEndChar c then
      if headIsEnd cs then splitEndsAux cs
      else ([], (splitEndsAux cs).1 :: (splitEndsAux cs).2)
    else (c :: (splitEndsAux cs).1, (splitEndsAux cs).2)

/-- Embedding of `re.split(r'[.!?]+', s)` as a list of segments. -/
def splitEnds (s : List Char) : List (List Char) :=
  (splitEndsAux s).1 :: (splitEndsAux s).2

/-- Embedding of `utils.tokenize_sentences`, translated from the source: guard the empty
text, protect abbreviations, split on `[.!?]+`, restore the protected dots,
trim each segment, and keep the nonempty ones in order. -/
def tokenize_sentences (text : List Char) : List (List Char) :=
  if text = [] then []
  else
    ((splitEnds (maskAbbreviations text)).map
      (fun s => pyStrip (pyReplace s dotToken ['.']))).filter (fun s => !s.isEmpty)

/-- The scan of `re.findall(r'\b[a-zA-Zа-яА-ЯёЁ]+\b', ...)`: walk the text
remembering the previous character; a maximal run of letters is a word exactly
when the characters on both sides (when present) are not word characters
(`\b`).  Fuel-counted; each step consumes at least one character. -/
def wordsAuxF : Nat → Option Char → List Char → List (List Char)
  | 0, _, _ => []
  | _ + 1, _, [] => []
  | fuel + 1, prev, c :: cs =>
    if targetLetter c && (match prev with | none => true | some p => !isWordChar p) then
      let run := c :: cs.takeWhile targetLetter
      let rest := cs.dropWhile targetLetter
      if (match rest with | [] => true | d :: _ => !isWordChar d) then
        run :: wordsAuxF fuel (some (run.getLastD c)) rest
      else wordsAuxF fuel (some (run.getLastD c)) rest
    else wordsAuxF fuel (some c) cs

/-- Embedding of `utils.tokenize_words`, translated from the source: lowercase, then extract
the boundary-delimited letter runs. -/
def tokenize_words (text : List Char) : List (List Char) :=
  wordsAuxF (pyLower text).length none (pyLower text)

/-- Embedding of `utils.count_characters`: total number of letters over the words. -/
def count_characters (words : List (List Char)) : Nat :=
  (words.map List.length).sum

/-- The whitespace-collapsing scan of `re.sub(r'\s+', ' ', text)`: every
maximal whitespace run becomes a single space. -/
def collapseWsAux : Bool → List Char → List Char
  | _, [] => []
  | prevSp, c :: cs =>
    if pyIsSpace c then
      if prevSp then collapseWsAux true cs else ' ' :: collapseWsAux true cs
    else c :: collapseWsAux false cs

/-- Embedding of `utils.clean_text`, translated from the source: collapse whitespace runs,
then strip. -/
def clean_text (text : List Char) : List Char :=
  if text = [] then [] else pyStrip (collapseWsAux false text)

/- Analyzer: `TextAnalyzer.analyze`, `TextAnalyzer.compare_texts`. -/

/-- The analyzer's configured language (`'en'`, `'ru'` or `'auto'`). -/
inductive LanguageMode | en | ru | auto

/-- The `ValueError`s raised by `TextAnalyzer.analyze`; the payloads are the
quantities interpolated into the corresponding Python messages (the
too-short message carries the measured word count and the minimum). -/
inductive ValidationError
  | emptyText
  | textTooShort (wordCount : Nat) (minWords : Nat)
  | tooFewSentences (minSentences : Nat)
deriving DecidableEq

/-- Constant `TextAnalyzer.MIN_WORDS`. -/
def MIN_WORDS : Nat := 10

/-- Constant `TextAnalyzer.MIN_SENTENCES`. -/
def MIN_SENTENCES : Nat := 1

/-- Embedding of `TextAnalyzer._get_syllable_counter`: the configured language wins; `auto`
detects the language of the analyzed (cleaned) text. -/
def syllableCounter (lang : LanguageMode) (text : List Char) : List Char → Nat :=
  match lang with
  | .ru => count_syllables_ru
  | .en => count_syllables
  | .auto => if detect_language text = "ru" then count_syllables_ru else count_syllables

/-- The `ReadabilityResult` dataclass. -/
structure ReadabilityResult where
  text_length : Nat
  word_count : Nat
  sentence_count : Nat
  avg_word_length : ℚ
  avg_sentence_length : ℚ
  flesch_score : ℚ
  flesch_kincaid : ℚ
  coleman_liau : ℚ
  ari : ℚ
  difficulty_level : String
  target_audience : String
  recommendations : List Recommendation
deriving DecidableEq

/-- Embedding of `TextAnalyzer.analyze`, translated from the source: validation first
(empty text, then word minimum, then sentence minimum — so a failure produces
no result record at all), then counting, metrics, classification and
recommendations. -/
def analyze (lang : LanguageMode) (text : List Char) :
    Except ValidationError ReadabilityResult :=
  if pyStrip text = [] then .error .emptyText
  else
    let cleaned := clean_text text
    let sentences := tokenize_sentences cleaned
    let words := tokenize_words cleaned
    if words.length < MIN_WORDS then .error (.textTooShort words.length MIN_WORDS)
    else if sentences.length < MIN_SENTENCES then .error (.tooFewSentences MIN_SENTENCES)
    else
      let syllable_counter := syllableCounter lang cleaned
      let total_chars := count_characters words
      let total_syllables := (words.map syllable_counter).sum
      let word_count := words.length
      let sentence_count := sentences.length
      let avg_word_length := round2 ((total_chars : ℚ) / (word_count : ℚ))
      let avg_sentence_length := round2 ((word_count : ℚ) / (sentence_count : ℚ))
      let flesch := flesch_reading_ease word_count sentence_count total_syllables
      let fk_grade := flesch_kincaid_grade word_count sentence_count total_syllables
      let coleman := coleman_liau_index total_chars word_count sentence_count
      let ari := automated_readability_index total_chars word_count sentence_count
      let da := get_difficulty_level flesch
      let recommendations :=
        generate_recommendations avg_sentence_length avg_word_length flesch word_count
      .ok {
        text_length := cleaned.length
        word_count := word_count
        sentence_count := sentence_count
        avg_word_length := avg_word_length
        avg_sentence_length := avg_sentence_length
        flesch_score := flesch
        flesch_kincaid := fk_grade
        coleman_liau := coleman
        ari := ari
        difficulty_level := da.1
        target_audience := da.2
        recommendations := recommendations }

instance {ε α : Type} [DecidableEq ε] [DecidableEq α] : DecidableEq (Except ε α) :=
  fun a b =>
    match a, b with
    | .error e, .error f =>
      if h : e = f then .isTrue (by rw [h]) else .isFalse (by simp [h])
    | .ok x, .ok y =>
      if h : x = y then .isTrue (by rw [h]) else .isFalse (by simp [h])
    | .error _, .ok _ => .isFalse (by simp)
    | .ok _, .error _ => .isFalse (by simp)

/-- One entry of the `compare_texts` output: the text's name together with
either its result or the caught validation error (Python's
`{'name': ..., 'success': ..., 'result'/'error': ...}` dict). -/
structure CompareEntry where
  name : String
  outcome : Except ValidationError ReadabilityResult

/-- The default names `"Текст {i+1}"` generated when `names is None`. -/
def defaultNames (n : Nat) : List String :=
  (List.range n).map (fun i => "Текст " ++ toString (i + 1))

/-- Embedding of `TextAnalyzer.compare_texts`, translated from the source: zip names with
texts and analyze each item inside a per-item `try/except ValueError`. -/
def compare_texts (lang : LanguageMode) (texts : List (List Char))
    (names : Option (List String)) : List CompareEntry :=
  let names := names.getD (defaultNames texts.length)
  (names.zip texts).map (fun nt =>
    match analyze lang nt.2 with
    | .ok r => { name := nt.1, outcome := .ok r }
    | .error e => { name := nt.1, outcome := .error e })

/-- A ten-word, one-sentence English text (the acceptance boundary). -/
def tenWordText : List Char :=
  "One two three four five six seven eight nine ten.".toList

/-- A nine-word, one-sentence English text (just below the minimum). -/
def nineWordText : List Char :=
  "One two three four five six seven eight nine.".toList

/-- A text made only of sentence-boundary characters. -/
def ellipsisText : List Char := "...".toList

/-- A text with no sentence-boundary character but containing the tokenizer's
internal `<DOT>` placeholder as a substring. -/
def dotPlaceholderText : List Char := "a <DOT> b".toList

/-- Occurrence test for a contiguous substring (Python's `pat in s`), used to
state when the `<DOT>`-restore step of `tokenize_sentences` can fire. -/
def hasOccurrence (pat : List Char) : List Char → Bool
  | [] => pat.isEmpty
  | c :: cs => pat.isPrefixOf (c :: cs) || hasOccurrence pat cs

/-- Characters that survive sentence splitting with visible content: neither a
sentence-boundary character nor whitespace. -/
def goodChar (c : Char) : Bool := !isEndChar c && !pyIsSpace c

/- Helper lemmas about characters and stripping. -/

theorem pyIsSpace_toLowerChar (c : Char) : pyIsSpace (toLowerChar c) = pyIsSpace c := by
  unfold toLowerChar
  split <;> rfl

theorem pyStrip_eq_self {l : List Char} (h : ∀ c ∈ l, pyIsSpace c = false) :
    pyStrip l = l := by
  unfold pyStrip
  have h1 : l.dropWhile pyIsSpace = l := by
    cases l with
    | nil => rfl
    | cons a l =>
      rw [List.dropWhile_cons_of_neg]
      simp [h a (by simp)]
  rw [h1]
  have h2 : l.reverse.dropWhile pyIsSpace = l.reverse := by
    cases hr : l.reverse with
    | nil => rfl
    | cons a r =>
      rw [List.dropWhile_cons_of_neg]
      have : a ∈ l := by
        have : a ∈ l.reverse := by rw [hr]; simp
        simpa using this
      simp [h a this]
  rw [h2, List.reverse_reverse]

theorem countP_dropWhile_nonSpace (l : List Char) :
    (l.dropWhile pyIsSpace).countP (fun c => !pyIsSpace c)
      = l.countP (fun c => !pyIsSpace c) := by
  induction l with
  | nil => rfl
  | cons a l ih =>
    by_cases ha : pyIsSpace a = true
    · rw [List.dropWhile_cons_of_pos ha, ih, List.countP_cons]
      simp [ha]
    · rw [List.dropWhile_cons_of_neg ha]

theorem countP_pyStrip_nonSpace (l : List Char) :
    (pyStrip l).countP (fun c => !pyIsSpace c) = l.countP (fun c => !pyIsSpace c) := by
  unfold pyStrip
  rw [List.countP_reverse, countP_dropWhile_nonSpace, List.countP_reverse,
    countP_dropWhile_nonSpace]

theorem pyStrip_ne_nil {l : List Char} (h : ∃ c ∈ l, pyIsSpace c = false) :
    pyStrip l ≠ [] := by
  obtain ⟨c, hc, hcs⟩ := h
  have hpos : 0 < l.countP (fun c => !pyIsSpace c) := by
    rw [List.countP_pos_iff]
    exact ⟨c, hc, by simp [hcs]⟩
  intro hnil
  rw [← countP_pyStrip_nonSpace, hnil] at hpos
  simp at hpos

theorem pyLower_nonSpace {w : List Char} (h : ∀ c ∈ w, pyIsSpace c = false) :
    ∀ c ∈ pyLower w, pyIsSpace c = false := by
  intro c hc
  obtain ⟨c₀, hc₀, rfl⟩ := List.mem_map.mp hc
  rw [pyIsSpace_toLowerChar]
  exact h c₀ hc₀

/-- C3. `flesch_reading_ease` computes exactly the clamped, 2-decimal-rounded
Flesch formula whenever both totals are positive, and returns 0 whenever the
word or sentence total is zero; in particular
`flesch_reading_ease 0 1 0 = 0` and `flesch_reading_ease 10 0 15 = 0`. -/
theorem flesch_reading_ease_matches_spec :
    (∀ w s y : ℕ, 0 < w → 0 < s →
      flesch_reading_ease w s y = fleschSpecFormula w s y) ∧
    (∀ w s y : ℕ, w = 0 ∨ s = 0 → flesch_reading_ease w s y = 0) ∧
    flesch_reading_ease 0 1 0 = 0 ∧ flesch_reading_ease 10 0 15 = 0 := by
  refine ⟨?_, ?_, ?_, ?_⟩
  · intro w s y hw hs
    rw [flesch_reading_ease, if_neg, fleschSpecFormula]
    push_neg
    omega
  · intro w s y h
    rw [flesch_reading_ease, if_pos h]
  · rw [flesch_reading_ease, if_pos (Or.inl rfl)]
  · rw [flesch_reading_ease, if_pos (Or.inr rfl)]

/-- Witness for C3: concrete instantiation of the main conjunct. -/
theorem flesch_reading_ease_matches_spec_witness :
    flesch_reading_ease 20 4 25 = fleschSpecFormula 20 4 25 :=
  flesch_reading_ease_matches_spec.1 20 4 25 (by norm_num) (by norm_num)

/-- C4. On whitespace-free word strings, `count_syllables` computes exactly
the algorithm the claim describes (lowercase, rising-edge vowel-run count,
silent-`e` correction, `-le` correction, clamp to 1 for nonempty input). -/
theorem count_syllables_matches_claim_alg :
    ∀ w : List Char, (∀ c ∈ w, pyIsSpace c = false) →
      count_syllables w = claimSyllableAlg w := by
  intro w hw
  have hstrip : pyStrip (pyLower w) = pyLower w :=
    pyStrip_eq_self (pyLower_nonSpace hw)
  rw [count_syllables, claimSyllableAlg, hstrip]
  by_cases hnil : w = []
  · subst hnil; rfl
  · rw [if_neg (by simpa [pyLower] using hnil), if_neg hnil]

/-- Witness for C4: concrete instantiation at the word "table". -/
theorem count_syllables_matches_claim_alg_witness :
    count_syllables "table".toList = claimSyllableAlg "table".toList :=
  count_syllables_matches_claim_alg "table".toList (by decide)

/-- C5. Both syllable estimators return at least 1 on every nonempty
(whitespace-free) word string, and exactly 0 on the empty string. -/
theorem syllable_count_min_one :
    (∀ w : List Char, (∃ c ∈ w, pyIsSpace c = false) →
      1 ≤ count_syllables w ∧ 1 ≤ count_syllables_ru w) ∧
    count_syllables [] = 0 ∧ count_syllables_ru [] = 0 := by
  refine ⟨?_, rfl, rfl⟩
  intro w hw
  have hex : ∃ c ∈ pyLower w, pyIsSpace c = false := by
    obtain ⟨c, hc, hcs⟩ := hw
    exact ⟨toLowerChar c, List.mem_map_of_mem _ hc, by rw [pyIsSpace_toLowerChar]; exact hcs⟩
  have hne : pyStrip (pyLower w) ≠ [] := pyStrip_ne_nil hex
  constructor
  · rw [count_syllables, if_neg hne]
    exact le_max_left _ _
  · rw [count_syllables_ru, if_neg hne]
    exact le_max_left _ _

/-- Witness for C5: concrete instantiation at the words "hello" / "привет". -/
theorem syllable_count_min_one_witness :
    1 ≤ count_syllables "hello".toList ∧ 1 ≤ count_syllables_ru "hello".toList :=
  syllable_count_min_one.1 "hello".toList ⟨'h', by decide⟩

theorem get_difficulty_level_eq (f : ℚ) :
    get_difficulty_level f =
      if 90 ≤ f ∧ f ≤ 100 then ("Очень легко", "Начальная школа (1-4 класс)")
      else if 70 ≤ f ∧ f ≤ 89 then ("Легко", "Средняя школа (5-7 класс)")
      else if 50 ≤ f ∧ f ≤ 69 then ("Средне", "Старшая школа (8-11 класс)")
      else if 30 ≤ f ∧ f ≤ 49 then ("Сложно", "Студенты бакалавриата")
      else if 0 ≤ f ∧ f ≤ 29 then ("Очень сложно", "Магистратура / Специалисты")
      else ("Неопределённо", "Неизвестно") := by
  simp only [get_difficulty_level, DIFFICULTY_THRESHOLDS, lookupBand]
  split_ifs <;> rfl

theorem gdl_band1 {f : ℚ} (h : 90 ≤ f ∧ f ≤ 100) :
    get_difficulty_level f = ("Очень легко", "Начальная школа (1-4 класс)") := by
  rw [get_difficulty_level_eq, if_pos h]

theorem gdl_band2 {f : ℚ} (h : 70 ≤ f ∧ f ≤ 89) :
    get_difficulty_level f = ("Легко", "Средняя школа (5-7 класс)") := by
  rw [get_difficulty_level_eq, if_neg (fun hx => by rcases hx with ⟨hx, -⟩; linarith [h.2]),
    if_pos h]

theorem gdl_band3 {f : ℚ} (h : 50 ≤ f ∧ f ≤ 69) :
    get_difficulty_level f = ("Средне", "Старшая школа (8-11 класс)") := by
  rw [get_difficulty_level_eq, if_neg (fun hx => by rcases hx with ⟨hx, -⟩; linarith [h.2]),
    if_neg (fun hx => by rcases hx with ⟨hx, -⟩; linarith [h.2]), if_pos h]

theorem gdl_band4 {f : ℚ} (h : 30 ≤ f ∧ f ≤ 49) :
    get_difficulty_level f = ("Сложно", "Студенты бакалавриата") := by
  rw [get_difficulty_level_eq, if_neg (fun hx => by rcases hx with ⟨hx, -⟩; linarith [h.2]),
    if_neg (fun hx => by rcases hx with ⟨hx, -⟩; linarith [h.2]),
    if_neg (fun hx => by rcases hx with ⟨hx, -⟩; linarith [h.2]), if_pos h]

theorem gdl_band5 {f : ℚ} (h : 0 ≤ f ∧ f ≤ 29) :
    get_difficulty_level f = ("Очень сложно", "Магистратура / Специалисты") := by
  rw [get_difficulty_level_eq, if_neg (fun hx => by rcases hx with ⟨hx, -⟩; linarith [h.2]),
    if_neg (fun hx => by rcases hx with ⟨hx, -⟩; linarith [h.2]),
    if_neg (fun hx => by rcases hx with ⟨hx, -⟩; linarith [h.2]),
    if_neg (fun hx => by rcases hx with ⟨hx, -⟩; linarith [h.2]), if_pos h]

theorem gdl_fallback_iff (f : ℚ) :
    get_difficulty_level f = ("Неопределённо", "Неизвестно") ↔
      ¬((90 ≤ f ∧ f ≤ 100) ∨ (70 ≤ f ∧ f ≤ 89) ∨ (50 ≤ f ∧ f ≤ 69) ∨
        (30 ≤ f ∧ f ≤ 49) ∨ (0 ≤ f ∧ f ≤ 29)) := by
  rw [get_difficulty_level_eq]
  split_ifs with h1 h2 h3 h4 h5
  · exact ⟨fun habs => absurd habs (by decide), fun hno => absurd (Or.inl h1) hno⟩
  · exact ⟨fun habs => absurd habs (by decide), fun hno => absurd (Or.inr (Or.inl h2)) hno⟩
  · exact ⟨fun habs => absurd habs (by decide),
      fun hno => absurd (Or.inr (Or.inr (Or.inl h3))) hno⟩
  · exact ⟨fun habs => absurd habs (by decide),
      fun hno => absurd (Or.inr (Or.inr (Or.inr (Or.inl h4)))) hno⟩
  · exact ⟨fun habs => absurd habs (by decide),
      fun hno => absurd (Or.inr (Or.inr (Or.inr (Or.inr h5)))) hno⟩
  · exact ⟨fun _ hor => hor.elim h1 fun hor2 => hor2.elim h2 fun hor3 =>
      hor3.elim h3 fun hor4 => hor4.elim h4 h5, fun _ => rfl⟩

/-- C1 counterexample: 89.99 lies in the theoretical range `[0, 100]`, yet the
classifier returns the fallback pair rather than the second band. -/
theorem difficulty_band_gap_counterexample :
    (0 : ℚ) ≤ 89.99 ∧ (89.99 : ℚ) ≤ 100 ∧
    get_difficulty_level 89.99 = ("Неопределённо", "Неизвестно") ∧
    get_difficulty_level 89.99 ≠ ("Легко", "Средняя школа (5-7 класс)") := by
  have h : get_difficulty_level 89.99 = ("Неопределённо", "Неизвестно") := by
    rw [gdl_fallback_iff]
    push_neg
    norm_num
  refine ⟨by norm_num, by norm_num, h, by rw [h]; decide⟩

/-- C1 (amended). The classifier's five bands are the closed integer-bounded
intervals `[90,100]`, `[70,89]`, `[50,69]`, `[30,49]`, `[0,29]`; they are
non-overlapping but do not cover the gaps `(29,30)`, `(49,50)`, `(69,70)`,
`(89,90)`.  A score of exactly 90.0 classifies as the top band, 89.99 falls in
a gap and yields the fallback, and the fallback is returned exactly for scores
outside the union of the five intervals. -/
theorem difficulty_level_amended :
    (∀ f : ℚ,
      ((90 ≤ f ∧ f ≤ 100) →
        get_difficulty_level f = ("Очень легко", "Начальная школа (1-4 класс)")) ∧
      ((70 ≤ f ∧ f ≤ 89) →
        get_difficulty_level f = ("Легко", "Средняя школа (5-7 класс)")) ∧
      ((50 ≤ f ∧ f ≤ 69) →
        get_difficulty_level f = ("Средне", "Старшая школа (8-11 класс)")) ∧
      ((30 ≤ f ∧ f ≤ 49) →
        get_difficulty_level f = ("Сложно", "Студенты бакалавриата")) ∧
      ((0 ≤ f ∧ f ≤ 29) →
        get_difficulty_level f = ("Очень сложно", "Магистратура / Специалисты")) ∧
      (get_difficulty_level f = ("Неопределённо", "Неизвестно") ↔
        ¬((90 ≤ f ∧ f ≤ 100) ∨ (70 ≤ f ∧ f ≤ 89) ∨ (50 ≤ f ∧ f ≤ 69) ∨
          (30 ≤ f ∧ f ≤ 49) ∨ (0 ≤ f ∧ f ≤ 29)))) ∧
    get_difficulty_level 90 = ("Очень легко", "Начальная школа (1-4 класс)") ∧
    get_difficulty_level 89.99 = ("Неопределённо", "Неизвестно") := by
  refine ⟨fun f => ⟨gdl_band1, gdl_band2, gdl_band3, gdl_band4, gdl_band5,
    gdl_fallback_iff f⟩, gdl_band1 ⟨by norm_num, by norm_num⟩, ?_⟩
  rw [gdl_fallback_iff]; push_neg; norm_num

/-- Witness for C1's amended theorem: concrete instantiation at score 95. -/
theorem difficulty_level_amended_witness :
    get_difficulty_level 95 = ("Очень легко", "Начальная школа (1-4 класс)") :=
  (difficulty_level_amended.1 95).1 (by norm_num)

theorem ite_ite_congr {α : Type} (P Q Q' : Prop) [Decidable P] [Decidable Q]
    [Decidable Q'] (x y z : α) (h : ¬P → (Q ↔ Q')) :
    (if P then x else if Q then y else z) = (if P then x else if Q' then y else z) := by
  by_cases hp : P
  · rw [if_pos hp, if_pos hp]
  · rw [if_neg hp, if_neg hp, if_congr (h hp) rfl rfl]

theorem ite_append_pair (r : List Recommendation) (c1 c2 : Prop) [Decidable c1]
    [Decidable c2] (x y : Recommendation) :
    (if c1 then r ++ [x] else if c2 then r ++ [y] else r)
      = r ++ (if c1 then [x] else if c2 then [y] else []) := by
  split_ifs <;> simp

theorem ite_append_single (r : List Recommendation) (c : Prop) [Decidable c]
    (x : Recommendation) :
    (if c then r ++ [x] else r) = r ++ (if c then [x] else []) := by
  split_ifs <;> simp

/-- C6. The recommendation list equals the ordered concatenation of the four
independently-evaluated rule blocks — sentence length, word length, Flesch
band, text length — with "well balanced" emitted exactly when all blocks are
empty. -/
theorem generate_recommendations_matches_spec :
    ∀ (asl awl f : ℚ) (wc : ℕ),
      generate_recommendations asl awl f wc = recsSpecC6 asl awl f wc := by
  intro asl awl f wc
  simp only [generate_recommendations, recsSpecC6]
  rw [ite_append_pair, ite_append_pair, ite_append_pair, ite_append_single]
  simp only [List.nil_append, List.append_assoc]
  have e1 : (if 25 < asl then [Recommendation.shortenStrong]
      else if 20 < asl then [Recommendation.shortenSoft] else [])
      = (if 25 < asl then [Recommendation.shortenStrong]
      else if 20 < asl ∧ asl ≤ 25 then [Recommendation.shortenSoft] else []) :=
    ite_ite_congr _ _ _ _ _ _ (fun hp =>
      ⟨fun hq => ⟨hq, le_of_not_lt hp⟩, fun hq => hq.1⟩)
  have e2 : (if 7 < awl then [Recommendation.vocabStrong]
      else if 6 < awl then [Recommendation.vocabSoft] else [])
      = (if 7 < awl then [Recommendation.vocabStrong]
      else if 6 < awl ∧ awl ≤ 7 then [Recommendation.vocabSoft] else []) :=
    ite_ite_congr _ _ _ _ _ _ (fun hp =>
      ⟨fun hq => ⟨hq, le_of_not_lt hp⟩, fun hq => hq.1⟩)
  have e3 : (if f < 30 then [Recommendation.veryHardWarning]
      else if f < 50 then [Recommendation.preparedAudience] else [])
      = (if f < 30 then [Recommendation.veryHardWarning]
      else if 30 ≤ f ∧ f < 50 then [Recommendation.preparedAudience] else []) :=
    ite_ite_congr _ _ _ _ _ _ (fun hp =>
      ⟨fun hq => ⟨le_of_not_lt hp, hq⟩, fun hq => hq.2⟩)
  rw [e1, e2, e3]

/-- C7. `detect_language` returns `"ru"` iff the Cyrillic letter count
strictly exceeds the Latin letter count; ties (including both zero and the
empty text) yield `"en"`; and on every input the result is one of the two
labels (the function is total — it never fails). -/
theorem detect_language_spec :
    ∀ t : List Char,
      (detect_language t = "ru" ↔ t.countP isLatChar < t.countP isCyrChar) ∧
      (t.countP isCyrChar = t.countP isLatChar → detect_language t = "en") ∧
      (detect_language t = "ru" ∨ detect_language t = "en") := by
  intro t
  have hru : ("en" : String) ≠ "ru" := by decide
  refine ⟨?_, ?_, ?_⟩
  · simp only [detect_language]
    by_cases hnil : t = []
    · subst hnil
      rw [if_pos rfl]
      exact ⟨fun h => absurd h hru, fun h => by simp at h⟩
    · rw [if_neg hnil]
      by_cases hcmp : t.countP isCyrChar > t.countP isLatChar
      · rw [if_pos hcmp]
        exact ⟨fun _ => hcmp, fun _ => rfl⟩
      · rw [if_neg hcmp]
        exact ⟨fun h => absurd h hru, fun h => absurd h hcmp⟩
  · intro he
    simp only [detect_language]
    by_cases hnil : t = []
    · rw [if_pos hnil]
    · rw [if_neg hnil, if_neg (by omega)]
  · simp only [detect_language]
    split_ifs <;> first | exact Or.inl rfl | exact Or.inr rfl

/-- Witness for C7: a tie (one Cyrillic, one Latin letter) resolves to "en". -/
theorem detect_language_spec_witness :
    detect_language "aб".toList = "en" :=
  (detect_language_spec "aб".toList).2.1 (by decide)

/- Monotonicity of rounding and of the Flesch score. -/

theorem rhalfEven_lb (q : ℚ) : ⌊q⌋ ≤ rhalfEven q := by
  unfold rhalfEven; split_ifs <;> omega

theorem rhalfEven_ub (q : ℚ) : rhalfEven q ≤ ⌊q⌋ + 1 := by
  unfold rhalfEven; split_ifs <;> omega

theorem rhalfEven_mono {x y : ℚ} (h : x ≤ y) : rhalfEven x ≤ rhalfEven y := by
  rcases lt_or_eq_of_le (Int.floor_le_floor h) with hf | hf
  · calc rhalfEven x ≤ ⌊x⌋ + 1 := rhalfEven_ub x
      _ ≤ ⌊y⌋ := by omega
      _ ≤ rhalfEven y := rhalfEven_lb y
  · unfold rhalfEven
    rw [hf]
    have hfr : x - (⌊y⌋ : ℚ) ≤ y - (⌊y⌋ : ℚ) := by linarith
    split_ifs <;> first | omega | (exfalso; linarith)

theorem round2_mono {x y : ℚ} (h : x ≤ y) : round2 x ≤ round2 y := by
  unfold round2
  have h100 : (0 : ℚ) < 100 := by norm_num
  apply (div_le_div_iff_of_pos_right h100).mpr
  exact_mod_cast rhalfEven_mono (by linarith : (100 : ℚ) * x ≤ 100 * y)

/-- C8. Holding the syllables-per-word ratio fixed, a larger words-per-sentence
ratio never yields a larger Flesch score (after clamping and rounding). -/
theorem flesch_monotone_in_sentence_length :
    ∀ w1 s1 y1 w2 s2 y2 : ℕ, 0 < w1 → 0 < s1 → 0 < w2 → 0 < s2 →
      (y1 : ℚ) / w1 = (y2 : ℚ) / w2 →
      (w1 : ℚ) / s1 ≤ (w2 : ℚ) / s2 →
      flesch_reading_ease w2 s2 y2 ≤ flesch_reading_ease w1 s1 y1 := by
  intro w1 s1 y1 w2 s2 y2 hw1 hs1 hw2 hs2 hv hr
  rw [flesch_reading_ease, if_neg (by push_neg; omega),
    flesch_reading_ease, if_neg (by push_neg; omega)]
  simp only []
  apply round2_mono
  apply max_le_max le_rfl
  apply min_le_min le_rfl
  rw [← hv]
  linarith

/-- Witness for C8: same syllable/word ratio, sentence length 5 vs 10. -/
theorem flesch_monotone_in_sentence_length_witness :
    flesch_reading_ease 20 2 30 ≤ flesch_reading_ease 20 4 30 :=
  flesch_monotone_in_sentence_length 20 4 30 20 2 30
    (by norm_num) (by norm_num) (by norm_num) (by norm_num)
    (by norm_num) (by norm_num)

/-- C2. `analyze` fails exactly when the text strips to nothing, the tokenized
word count is below 10, or the tokenized sentence count is below 1; the
word-count error carries the measured count and the minimum 10; a ten-word
one-sentence text is accepted while the corresponding nine-word text is
rejected with an error mentioning the count 9 and the minimum 10.  Failure
produces an `Except.error` only — no partial result record exists. -/
theorem analyze_validation_spec :
    (∀ (lang : LanguageMode) (text : List Char),
      (∃ e, analyze lang text = .error e) ↔
        (pyStrip text = [] ∨ (tokenize_words (clean_text text)).length < 10 ∨
          (tokenize_sentences (clean_text text)).length < 1)) ∧
    (∀ (lang : LanguageMode) (text : List Char),
      pyStrip text ≠ [] → (tokenize_words (clean_text text)).length < 10 →
        analyze lang text =
          .error (.textTooShort (tokenize_words (clean_text text)).length 10)) ∧
    ((tokenize_words (clean_text tenWordText)).length = 10 ∧
      (tokenize_sentences (clean_text tenWordText)).length = 1 ∧
      (analyze .en tenWordText).isOk = true) ∧
    ((tokenize_words (clean_text nineWordText)).length = 9 ∧
      analyze .en nineWordText = .error (.textTooShort 9 10)) := by
  refine ⟨?_, ?_, ⟨by decide, by decide, by decide⟩, ⟨by decide, by decide⟩⟩
  · intro lang text
    simp only [analyze, MIN_WORDS, MIN_SENTENCES]
    split_ifs with h1 h2 h3
    · exact ⟨fun _ => Or.inl h1, fun _ => ⟨_, rfl⟩⟩
    · exact ⟨fun _ => Or.inr (Or.inl h2), fun _ => ⟨_, rfl⟩⟩
    · exact ⟨fun _ => Or.inr (Or.inr h3), fun _ => ⟨_, rfl⟩⟩
    · constructor
      · rintro ⟨e, he⟩
        exact absurd he (by simp)
      · rintro (h | h | h)
        · exact absurd h h1
        · exact absurd h h2
        · exact absurd h h3
  · intro lang text h1 h2
    simp only [analyze, MIN_WORDS, MIN_SENTENCES]
    rw [if_neg h1, if_pos h2]

/-- Witness for C2: concrete instantiation of the error-payload conjunct. -/
theorem analyze_validation_spec_witness :
    analyze .en nineWordText =
      .error (.textTooShort (tokenize_words (clean_text nineWordText)).length 10) :=
  analyze_validation_spec.2.1 .en nineWordText (by decide) (by decide)

/-- C10 counterexample: "..." is non-empty after whitespace cleaning, yet
`tokenize_sentences` returns no sentence at all; and "a <DOT> b", which
contains no occurrence of '.', '!' or '?', does not survive as a single
trimmed segment — the restore step rewrites its `<DOT>` substring to ".". -/
theorem tokenize_sentences_gap_counterexample :
    (clean_text ellipsisText ≠ [] ∧
      tokenize_sentences (clean_text ellipsisText) = [] ∧
      (tokenize_sentences (clean_text ellipsisText)).length < 1) ∧
    (dotPlaceholderText.all (fun c => !isEndChar c) = true ∧
      clean_text dotPlaceholderText = dotPlaceholderText ∧
      tokenize_sentences (clean_text dotPlaceholderText) = ["a . b".toList] ∧
      tokenize_sentences (clean_text dotPlaceholderText) ≠ [dotPlaceholderText]) :=
  ⟨⟨by decide, by decide, by decide⟩, ⟨by decide, by decide, by decide, by decide⟩⟩

/- Lemma chain for C10: a character that is neither a boundary character nor
whitespace survives masking, splitting, dot-restoring and trimming, so the
text yields at least one sentence. -/

theorem mem_of_isPrefixOf : ∀ {l s : List Char}, l.isPrefixOf s = true →
    ∀ {c : Char}, c ∈ l → c ∈ s := by
  intro l
  induction l with
  | nil => intro s _ c hc; simp at hc
  | cons a l ih =>
    intro s h c hc
    cases s with
    | nil => simp [List.isPrefixOf] at h
    | cons b s =>
      simp only [List.isPrefixOf, Bool.and_eq_true, beq_iff_eq] at h
      rcases List.mem_cons.mp hc with rfl | hc'
      · rw [h.1]; exact List.mem_cons_self _ _
      · exact List.mem_cons_of_mem _ (ih h.2 hc')

theorem exists_mem_replaceAllFuel (p : Char → Bool) (pat rep : List Char)
    (hrep : ∃ c ∈ rep, p c = true) :
    ∀ (fuel : Nat) (s : List Char), (∃ c ∈ s, p c = true) →
      ∃ c ∈ replaceAllFuel pat rep fuel s, p c = true := by
  intro fuel
  induction fuel with
  | zero => intro s hs; exact hs
  | succ n ih =>
    intro s hs
    cases s with
    | nil => simp at hs
    | cons c cs =>
      simp only [replaceAllFuel]
      split_ifs with hpre
      · obtain ⟨r, hr, hp⟩ := hrep
        exact ⟨r, List.mem_append_left _ hr, hp⟩
      · obtain ⟨x, hx, hpx⟩ := hs
        rcases List.mem_cons.mp hx with rfl | hx'
        · exact ⟨x, List.mem_cons_self _ _, hpx⟩
        · obtain ⟨y, hy, hpy⟩ := ih cs ⟨x, hx', hpx⟩
          exact ⟨y, List.mem_cons_of_mem _ hy, hpy⟩

theorem pyReplace_exists (p : Char → Bool) (s pat rep : List Char)
    (hrep : ∃ c ∈ rep, p c = true) (hs : ∃ c ∈ s, p c = true) :
    ∃ c ∈ pyReplace s pat rep, p c = true :=
  exists_mem_replaceAllFuel p pat rep hrep s.length s hs

theorem exists_good_foldl :
    ∀ (l : List (List Char)) (t : List Char),
      (∀ a ∈ l, ∃ c ∈ maskDots a, goodChar c = true) →
      (∃ c ∈ t, goodChar c = true) →
      ∃ c ∈ l.foldl (fun s a => pyReplace s a (maskDots a)) t, goodChar c = true := by
  intro l
  induction l with
  | nil => intro t _ ht; exact ht
  | cons a l ih =>
    intro t hl ht
    rw [List.foldl_cons]
    exact ih _ (fun b hb => hl b (List.mem_cons_of_mem _ hb))
      (pyReplace_exists _ _ _ _ (hl a (List.mem_cons_self _ _)) ht)

theorem exists_good_mask {t : List Char} (ht : ∃ c ∈ t, goodChar c = true) :
    ∃ c ∈ maskAbbreviations t, goodChar c = true :=
  exists_good_foldl ABBREVIATIONS t (by decide) ht

theorem exists_good_splitEndsAux :
    ∀ s : List Char, (∃ c ∈ s, goodChar c = true) →
      ∃ seg ∈ (splitEndsAux s).1 :: (splitEndsAux s).2, ∃ c ∈ seg, goodChar c = true := by
  intro s
  induction s with
  | nil => intro h; simp at h
  | cons c cs ih =>
    intro h
    by_cases hc : isEndChar c = true
    · have hcs : ∃ x ∈ cs, goodChar x = true := by
        obtain ⟨x, hx, hpx⟩ := h
        rcases List.mem_cons.mp hx with rfl | hx'
        · rw [show goodChar x = false by simp [goodChar, hc]] at hpx
          exact absurd hpx (by simp)
        · exact ⟨x, hx', hpx⟩
      obtain ⟨seg, hseg, hsg⟩ := ih hcs
      by_cases hh : headIsEnd cs = true
      · simp only [splitEndsAux]
        rw [if_pos hc, if_pos hh]
        exact ⟨seg, hseg, hsg⟩
      · simp only [splitEndsAux]
        rw [if_pos hc, if_neg hh]
        exact ⟨seg, List.mem_cons_of_mem _ hseg, hsg⟩
    · simp only [splitEndsAux]
      rw [if_neg hc]
      obtain ⟨x, hx, hpx⟩ := h
      rcases List.mem_cons.mp hx with rfl | hx'
      · exact ⟨x :: (splitEndsAux cs).1, List.mem_cons_self _ _, x,
          List.mem_cons_self _ _, hpx⟩
      · obtain ⟨seg, hseg, hsg⟩ := ih ⟨x, hx', hpx⟩
        rcases List.mem_cons.mp hseg with heq | hseg'
        · obtain ⟨y, hy, hpy⟩ := hsg
          exact ⟨c :: (splitEndsAux cs).1, List.mem_cons_self _ _, y,
            List.mem_cons_of_mem _ (heq ▸ hy), hpy⟩
        · exact ⟨seg, List.mem_cons_of_mem _ hseg', hsg⟩

theorem exists_good_splitEnds {s : List Char} (h : ∃ c ∈ s, goodChar c = true) :
    ∃ seg ∈ splitEnds s, ∃ c ∈ seg, goodChar c = true := by
  simpa [splitEnds] using exists_good_splitEndsAux s h

theorem tokenize_sentences_pos {t : List Char} (ht : ∃ c ∈ t, goodChar c = true) :
    1 ≤ (tokenize_sentences t).length := by
  have htne : t ≠ [] := by
    obtain ⟨c, hc, -⟩ := ht
    exact fun hnil => by simp [hnil] at hc
  rw [tokenize_sentences, if_neg htne]
  obtain ⟨seg, hseg, hsg⟩ := exists_good_splitEnds (exists_good_mask ht)
  have hnsp : ∃ c ∈ pyReplace seg dotToken ['.'], (!pyIsSpace c) = true := by
    apply pyReplace_exists _ _ _ _ ⟨'.', by decide, by decide⟩
    obtain ⟨y, hy, hpy⟩ := hsg
    refine ⟨y, hy, ?_⟩
    have := hpy
    simp only [goodChar, Bool.and_eq_true] at this
    exact this.2
  have hmne : pyStrip (pyReplace seg dotToken ['.']) ≠ [] := by
    apply pyStrip_ne_nil
    obtain ⟨c, hc, hp⟩ := hnsp
    exact ⟨c, hc, by simpa using hp⟩
  have hmem : pyStrip (pyReplace seg dotToken ['.']) ∈
      ((splitEnds (maskAbbreviations t)).map
        (fun s => pyStrip (pyReplace s dotToken ['.']))).filter (fun s => !s.isEmpty) := by
    apply List.mem_filter.mpr
    exact ⟨List.mem_map_of_mem _ hseg, by simpa using hmne⟩
  exact List.length_pos.mpr (List.ne_nil_of_mem hmem)

theorem replaceAllFuel_id {pat rep : List Char} (cp : Char) (hcp : cp ∈ pat) :
    ∀ (fuel : Nat) (s : List Char), cp ∉ s → replaceAllFuel pat rep fuel s = s := by
  intro fuel
  induction fuel with
  | zero => intro s _; rfl
  | succ n ih =>
    intro s hs
    cases s with
    | nil => rfl
    | cons c cs =>
      simp only [replaceAllFuel]
      rw [if_neg, ih cs (fun h => hs (List.mem_cons_of_mem _ h))]
      intro hpre
      exact hs (mem_of_isPrefixOf hpre hcp)

theorem mask_id {t : List Char} (h : ('.' : Char) ∉ t) : maskAbbreviations t = t := by
  rw [maskAbbreviations]
  have key : ∀ l : List (List Char), (∀ a ∈ l, ('.' : Char) ∈ a) →
      l.foldl (fun s a => pyReplace s a (maskDots a)) t = t := by
    intro l
    induction l with
    | nil => intro _; rfl
    | cons a l ih =>
      intro hl
      rw [List.foldl_cons,
        show pyReplace t a (maskDots a) = t from
          replaceAllFuel_id '.' (hl a (List.mem_cons_self _ _)) _ t h]
      exact ih (fun b hb => hl b (List.mem_cons_of_mem _ hb))
  exact key ABBREVIATIONS (by decide)

theorem splitEndsAux_no_end {s : List Char} (h : ∀ c ∈ s, isEndChar c = false) :
    splitEndsAux s = (s, []) := by
  induction s with
  | nil => rfl
  | cons c cs ih =>
    simp only [splitEndsAux]
    rw [if_neg (by simp [h c (List.mem_cons_self _ _)]),
      ih (fun x hx => h x (List.mem_cons_of_mem _ hx))]

theorem replaceAllFuel_id_of_no_occurrence {pat rep : List Char} :
    ∀ (fuel : Nat) (s : List Char), hasOccurrence pat s = false →
      replaceAllFuel pat rep fuel s = s := by
  intro fuel
  induction fuel with
  | zero => intro s _; rfl
  | succ n ih =>
    intro s hs
    cases s with
    | nil => rfl
    | cons c cs =>
      rcases Bool.or_eq_false_iff.mp (by simpa [hasOccurrence] using hs) with ⟨hp, ho⟩
      simp only [replaceAllFuel]
      rw [if_neg (by simp [hp]), ih cs ho]

theorem tokenize_sentences_no_enders {t : List Char} (hne : t ≠ [])
    (hend : ∀ c ∈ t, isEndChar c = false) (hnd : hasOccurrence dotToken t = false) :
    tokenize_sentences t = if pyStrip t = [] then [] else [pyStrip t] := by
  rw [tokenize_sentences, if_neg hne]
  have hdot : ('.' : Char) ∉ t := fun hm => by simpa [isEndChar] using hend '.' hm
  rw [mask_id hdot, splitEnds, splitEndsAux_no_end hend]
  simp only [List.map_cons, List.map_nil]
  rw [show pyReplace t dotToken ['.'] = t from
    replaceAllFuel_id_of_no_occurrence _ t hnd]
  by_cases hs : pyStrip t = []
  · rw [if_pos hs, hs]
    rfl
  · rw [if_neg hs]
    have hf : (pyStrip t).isEmpty = false := by simpa [List.isEmpty_iff] using hs
    simp [List.filter, hf]

theorem wordsAuxF_nil_of_no_letters :
    ∀ (fuel : Nat) (prev : Option Char) (l : List Char),
      (∀ c ∈ l, targetLetter c = false) → wordsAuxF fuel prev l = [] := by
  intro fuel
  induction fuel with
  | zero => intro prev l _; rfl
  | succ n ih =>
    intro prev l h
    cases l with
    | nil => rfl
    | cons c cs =>
      simp only [wordsAuxF]
      rw [if_neg]
      · exact ih _ cs (fun x hx => h x (List.mem_cons_of_mem _ hx))
      · simp [h c (List.mem_cons_self _ _)]

theorem tokenize_words_ne_nil_letter {t : List Char} (h : tokenize_words t ≠ []) :
    ∃ c ∈ t, targetLetter (toLowerChar c) = true := by
  by_contra hng
  push_neg at hng
  apply h
  apply wordsAuxF_nil_of_no_letters
  intro c hc
  obtain ⟨cz, hcz, rfl⟩ := List.mem_map.mp hc
  simpa using hng cz hcz

theorem target_lower_good (c : Char) (h : targetLetter (toLowerChar c) = true) :
    goodChar c = true := by
  cases hgc : goodChar c
  · exfalso
    have hsplit : isEndChar c = true ∨ pyIsSpace c = true := by
      cases he : isEndChar c
      · cases hp : pyIsSpace c
        · simp [goodChar, he, hp] at hgc
        · exact Or.inr rfl
      · exact Or.inl rfl
    rcases hsplit with hend | hsp
    · have hcc : (c = '.' ∨ c = '!') ∨ c = '?' := by simpa [isEndChar] using hend
      rcases hcc with (rfl | rfl) | rfl <;> exact absurd h (by decide)
    · have hcc : ((((c = ' ' ∨ c = '\t') ∨ c = '\n') ∨ c = '\r') ∨ c = '\x0b') ∨
          c = '\x0c' := by simpa [pyIsSpace] using hsp
      rcases hcc with ((((rfl | rfl) | rfl) | rfl) | rfl) | rfl <;>
        exact absurd h (by decide)
  · rfl

/-- C10 (amended). `tokenize_sentences` returns at least one sentence whenever
the cleaned text contains a character that is neither a sentence-boundary
character (`.`, `!`, `?`) nor whitespace (the counterexample "..." shows the
claim's blanket non-emptiness premise is not enough); when the text contains
no boundary character and no occurrence of the substring `<DOT>` (the
counterexample "a <DOT> b" shows the restore step rewrites that placeholder)
the entire text survives as a single trimmed segment; and the sentence-count
validation branch of `analyze` is unreachable: any text passing the word-count
check contains a letter, hence yields at least one sentence, so the
sentence-count `ValueError` is never raised for any input. -/
theorem tokenize_sentences_amended :
    (∀ text : List Char,
      (∃ c ∈ clean_text text, goodChar c = true) →
        1 ≤ (tokenize_sentences (clean_text text)).length) ∧
    (∀ text : List Char, text ≠ [] →
      (∀ c ∈ text, isEndChar c = false) → hasOccurrence dotToken text = false →
        tokenize_sentences text = if pyStrip text = [] then [] else [pyStrip text]) ∧
    (∀ (lang : LanguageMode) (text : List Char) (m : Nat),
      analyze lang text ≠ .error (.tooFewSentences m)) := by
  refine ⟨fun text hgood => tokenize_sentences_pos hgood,
    fun text hne hend hnd => tokenize_sentences_no_enders hne hend hnd, ?_⟩
  intro lang text m
  simp only [analyze, MIN_WORDS, MIN_SENTENCES]
  split_ifs with h1 h2 h3
  · simp
  · simp
  · exfalso
    have hw : tokenize_words (clean_text text) ≠ [] := by
      intro hnil
      rw [hnil] at h2
      exact h2 (by decide)
    obtain ⟨c, hc, hlet⟩ := tokenize_words_ne_nil_letter hw
    have hpos : 1 ≤ (tokenize_sentences (clean_text text)).length :=
      tokenize_sentences_pos ⟨c, hc, target_lower_good c hlet⟩
    omega
  · simp

/-- Witness for C10's amended theorem: a one-letter text yields a sentence. -/
theorem tokenize_sentences_amended_witness :
    1 ≤ (tokenize_sentences (clean_text "Hi there.".toList)).length :=
  tokenize_sentences_amended.1 "Hi there.".toList ⟨'H', by decide⟩

theorem compare_entry_match (lang : LanguageMode) (n : String) (t : List Char) :
    (match analyze lang t with
      | .ok r => ({ name := n, outcome := .ok r } : CompareEntry)
      | .error e => { name := n, outcome := .error e }) =
      { name := n, outcome := analyze lang t } := by
  cases h : analyze lang t <;> rfl

/-- C9. `compare_texts` (with default names) produces exactly one entry per
input text, in input order; the i-th entry depends only on the i-th text — its
outcome is that text's `analyze` result, so a caught validation error is
recorded (with its payload) alongside the other items' successes and one
item's failure cannot affect the others.  Concretely, a valid and an invalid
text analyzed together yield a success entry followed by a failure entry. -/
theorem compare_texts_per_item :
    (∀ (lang : LanguageMode) (texts : List (List Char)),
      compare_texts lang texts none =
        texts.mapIdx (fun i t =>
          { name := "Текст " ++ toString (i + 1), outcome := analyze lang t }) ∧
      (compare_texts lang texts none).length = texts.length) ∧
    (compare_texts .en [tenWordText, nineWordText] none).map
        (fun e => (e.name, e.outcome.isOk)) =
      [("Текст 1", true), ("Текст 2", false)] := by
  constructor
  · intro lang texts
    have hmain : compare_texts lang texts none =
        texts.mapIdx (fun i t =>
          { name := "Текст " ++ toString (i + 1), outcome := analyze lang t }) := by
      simp only [compare_texts, Option.getD, defaultNames]
      rw [List.zip_map_left, List.map_map, ← List.enum_eq_zip_range,
        List.mapIdx_eq_enum_map]
      apply List.map_congr_left
      rintro ⟨i, t⟩ -
      simpa [Function.comp, Function.uncurry, Prod.map] using
        compare_entry_match lang ("Текст " ++ toString (i + 1)) t
    exact ⟨hmain, by rw [hmain]; simp⟩
  · decide

end Readability
